import Mathlib

/-!
Shallow embedding of the CHIP-8 interpreter core found in
`src/chip8_core/src/lib.rs`, together with proofs about the claims of the
specification.

Modelling conventions:
* Machine integers (`u8`, `u16`) are modelled as `Nat`; wherever the source
  relies on wrapping behaviour (`wrapping_add`, `overflowing_add`,
  `overflowing_sub`, a `u8` left shift), the embedding takes the result
  `% 2^w` explicitly.  `pc += 2` style additions that cannot overflow in any
  reachable theorem context are plain `Nat` additions.
* Rust's fixed-size arrays (`ram`, `screen`, `v_reg`, `stack`, `keys`) are
  modelled as total functions from `Nat`; the out-of-bounds panics that Rust
  would raise are covered by the in-bounds hypotheses carried by the theorems
  that need them.
* `execute` can fail: the source's `unimplemented!` arm (which panics with the
  raw opcode word) is modelled as `Except.error op`.
* The `rand::random()` byte drawn by opcode `CXNN` is passed in as an explicit
  `rng` argument.
-/

namespace Chip8

def SCREEN_WIDTH : Nat := 64
def SCREEN_HEIGHT : Nat := 32
def RAM_SIZE : Nat := 4096
def NUM_REGS : Nat := 16
def STACK_SIZE : Nat := 16
def NUM_KEYS : Nat := 16
def START_ADDR : Nat := 0x200
def FONT_SIZE : Nat := 80

/-- The 16 five-byte hexadecimal font glyphs, one list per character, exactly
the rows of the source's `FONTSET` table (`lib.rs` lines 39-56, whose comments
label the five bytes of each character). -/
def fontGlyph : Nat → List Nat
  | 0x0 => [0xF0, 0x90, 0x90, 0x90, 0xF0]
  | 0x1 => [0x20, 0x60, 0x20, 0x20, 0x70]
  | 0x2 => [0xF0, 0x10, 0xF0, 0x80, 0xF0]
  | 0x3 => [0xF0, 0x10, 0xF0, 0x10, 0xF0]
  | 0x4 => [0x90, 0x90, 0xF0, 0x10, 0x10]
  | 0x5 => [0xF0, 0x80, 0xF0, 0x10, 0xF0]
  | 0x6 => [0xF0, 0x80, 0xF0, 0x90, 0xF0]
  | 0x7 => [0xF0, 0x10, 0x20, 0x40, 0x40]
  | 0x8 => [0xF0, 0x90, 0xF0, 0x90, 0xF0]
  | 0x9 => [0xF0, 0x90, 0xF0, 0x10, 0xF0]
  | 0xA => [0xF0, 0x90, 0xF0, 0x90, 0x90]
  | 0xB => [0xE0, 0x90, 0xE0, 0x90, 0xE0]
  | 0xC => [0xF0, 0x80, 0x80, 0x80, 0xF0]
  | 0xD => [0xE0, 0x90, 0x90, 0x90, 0xE0]
  | 0xE => [0xF0, 0x80, 0xF0, 0x80, 0xF0]
  | 0xF => [0xF0, 0x80, 0xF0, 0x80, 0x80]
  | _ => []

/-- The source's `FONTSET: [u8; FONT_SIZE]` — the 80-byte font table, flattened. -/
def FONTSET : List Nat :=
  fontGlyph 0x0 ++ fontGlyph 0x1 ++ fontGlyph 0x2 ++ fontGlyph 0x3 ++
  fontGlyph 0x4 ++ fontGlyph 0x5 ++ fontGlyph 0x6 ++ fontGlyph 0x7 ++
  fontGlyph 0x8 ++ fontGlyph 0x9 ++ fontGlyph 0xA ++ fontGlyph 0xB ++
  fontGlyph 0xC ++ fontGlyph 0xD ++ fontGlyph 0xE ++ fontGlyph 0xF

/-- The emulator state (`pub struct Emu`, `lib.rs` lines 58-76). -/
structure Emu where
  pc : Nat
  ram : Nat → Nat
  screen : Nat → Bool
  v_reg : Nat → Nat
  i_reg : Nat
  sp : Nat
  stack : Nat → Nat
  keys : Nat → Bool
  dt : Nat
  st : Nat

/-- The RAM contents right after construction: all zero, then
`ram[..FONT_SIZE].copy_from_slice(&FONTSET)`. -/
def initRam : Nat → Nat :=
  fun a => if a < FONT_SIZE then FONTSET.getD a 0 else 0

/-- Constructor `Emu::new` (`lib.rs` lines 95-125). -/
def Emu.new : Emu :=
  { pc := START_ADDR
    ram := initRam
    screen := fun _ => false
    v_reg := fun _ => 0
    i_reg := 0
    sp := 0
    stack := fun _ => 0
    keys := fun _ => false
    dt := 0
    st := 0 }

/-- Method `Emu::reset` (`lib.rs` lines 142-154): every field is assigned its initial
value and the font is copied back, independently of the previous state. -/
def Emu.reset (_s : Emu) : Emu :=
  { pc := START_ADDR
    ram := initRam
    screen := fun _ => false
    v_reg := fun _ => 0
    i_reg := 0
    sp := 0
    stack := fun _ => 0
    keys := fun _ => false
    dt := 0
    st := 0 }

/-- Method `Emu::get_display` (`lib.rs` lines 158-160). -/
def Emu.get_display (s : Emu) : Nat → Bool := s.screen

/-- Method `Emu::keypress` (`lib.rs` lines 172-174). -/
def Emu.keypress (s : Emu) (idx : Nat) (pressed : Bool) : Emu :=
  { s with keys := Function.update s.keys idx pressed }

/-- Method `Emu::load` (`lib.rs` lines 185-189): copy `data` into RAM starting at
`START_ADDR`. -/
def Emu.load (s : Emu) (data : List Nat) : Emu :=
  { s with ram := fun a =>
      if START_ADDR ≤ a ∧ a < START_ADDR + data.length then
        data.getD (a - START_ADDR) 0
      else s.ram a }

/-- Method `Emu::push` (`lib.rs` lines 955-958): write at the cursor, then increment. -/
def Emu.push (s : Emu) (val : Nat) : Emu :=
  { s with stack := Function.update s.stack s.sp val, sp := s.sp + 1 }

/-- Method `Emu::pop` (`lib.rs` lines 973-976): decrement the cursor, then read.  The
source performs an unguarded `u16` decrement (underflow panics in debug
builds); theorems only invoke `pop` with `0 < sp`. -/
def Emu.pop (s : Emu) : Nat × Emu :=
  (s.stack (s.sp - 1), { s with sp := s.sp - 1 })

/-- Method `Emu::fetch` (`lib.rs` lines 910-916): big-endian 16-bit word at `pc`,
then `pc += 2`. -/
def Emu.fetch (s : Emu) : Nat × Emu :=
  ((s.ram s.pc <<< 8) ||| s.ram (s.pc + 1), { s with pc := s.pc + 2 })

/-- Method `Emu::tick_timers` (`lib.rs` lines 926-936).  The source decrements `dt`
when it is nonzero; its `st` branch is
`if self.st > 0 { if self.st == 1 { /- BEEP -/ } }` — both branches contain no
assignment, so `st` is never changed (contradicting the function's own doc
comment, which says both timers decrease by one every frame). -/
def Emu.tick_timers (s : Emu) : Emu :=
  let s1 := if 0 < s.dt then { s with dt := s.dt - 1 } else s
  if 0 < s1.st then (if s1.st = 1 then s1 else s1) else s1

/-- One row of the `DXYN` inner loop (`lib.rs` lines 626-639): for each of the
8 sprite bits (most significant bit leftmost), if the bit is set, wrap the
coordinates modulo the screen size and XOR the pixel, or-ing the pixel's old
value into the collision accumulator. -/
def spriteRow (x_coord y_coord y_line pixels : Nat)
    (acc : (Nat → Bool) × Bool) : (Nat → Bool) × Bool :=
  (List.range 8).foldl (fun a x_line =>
    if pixels &&& (0x80 >>> x_line) ≠ 0 then
      let x := (x_coord + x_line) % SCREEN_WIDTH
      let y := (y_coord + y_line) % SCREEN_HEIGHT
      let idx := x + SCREEN_WIDTH * y
      (Function.update a.1 idx (xor (a.1 idx) true), a.2 || a.1 idx)
    else a) acc

/-- The `DXYN` row loop (`lib.rs` lines 620-640): row `y_line` is the byte at
`ram[i_reg + y_line]`.  Returns the final screen and the collision flag. -/
def Emu.drawSprite (s : Emu) (x_coord y_coord num_rows : Nat) :
    (Nat → Bool) × Bool :=
  (List.range num_rows).foldl
    (fun acc y_line => spriteRow x_coord y_coord y_line (s.ram (s.i_reg + y_line)) acc)
    (s.screen, false)

/-- Method `Emu::execute` (`lib.rs` lines 212-869).  The four nibble digits drive the
dispatch exactly as the source's `match (digit1, digit2, digit3, digit4)`, in
the source's arm order; the final `unimplemented!` arm becomes
`Except.error op`.  `rng` stands for the byte drawn by `rand::random()` in the
`CXNN` arm. -/
def Emu.execute (s : Emu) (rng : Nat) (op : Nat) : Except Nat Emu :=
  match (op &&& 0xF000) >>> 12, (op &&& 0x0F00) >>> 8,
        (op &&& 0x00F0) >>> 4, op &&& 0x000F with
  | 0, 0, 0, 0 => .ok s
  | 0, 0, 0xE, 0 => .ok { s with screen := fun _ => false }
  | 0, 0, 0xE, 0xE =>
      let p := s.pop
      .ok { p.2 with pc := p.1 }
  | 1, _, _, _ => .ok { s with pc := op &&& 0xFFF }
  | 2, _, _, _ => .ok { s.push s.pc with pc := op &&& 0xFFF }
  | 3, x, _, _ =>
      .ok (if s.v_reg x = op &&& 0xFF then { s with pc := s.pc + 2 } else s)
  | 4, x, _, _ =>
      .ok (if s.v_reg x ≠ op &&& 0xFF then { s with pc := s.pc + 2 } else s)
  | 5, x, y, 0 =>
      .ok (if s.v_reg x = s.v_reg y then { s with pc := s.pc + 2 } else s)
  | 6, x, _, _ =>
      .ok { s with v_reg := Function.update s.v_reg x (op &&& 0xFF) }
  | 7, x, _, _ =>
      -- `wrapping_add` on `u8`
      .ok { s with v_reg := Function.update s.v_reg x ((s.v_reg x + (op &&& 0xFF)) % 256) }
  | 8, x, y, 1 =>
      .ok { s with v_reg := Function.update s.v_reg x (s.v_reg x ||| s.v_reg y) }
  | 8, x, y, 2 =>
      .ok { s with v_reg := Function.update s.v_reg x (s.v_reg x &&& s.v_reg y) }
  | 8, x, y, 3 =>
      .ok { s with v_reg := Function.update s.v_reg x (s.v_reg x ^^^ s.v_reg y) }
  | 8, x, y, 4 =>
      -- `overflowing_add` on `u8`: wrapped sum, carry iff the sum exceeds 255;
      -- `v_reg[x]` is written first, then `v_reg[0xF]`
      let new_vx := (s.v_reg x + s.v_reg y) % 256
      let new_vf := if 255 < s.v_reg x + s.v_reg y then 1 else 0
      .ok { s with v_reg := Function.update (Function.update s.v_reg x new_vx) 0xF new_vf }
  | 8, x, y, 5 =>
      -- `overflowing_sub` on `u8`: wrapped difference, borrow iff vx < vy
      let new_vx := (s.v_reg x + 256 - s.v_reg y) % 256
      let new_vf := if s.v_reg x < s.v_reg y then 0 else 1
      .ok { s with v_reg := Function.update (Function.update s.v_reg x new_vx) 0xF new_vf }
  | 8, x, _, 6 =>
      -- the lsb is captured first, then `v_reg[x] >>= 1`, then `v_reg[0xF] = lsb`
      let lsb := s.v_reg x &&& 1
      .ok { s with v_reg := Function.update (Function.update s.v_reg x (s.v_reg x >>> 1)) 0xF lsb }
  | 8, x, y, 7 =>
      let new_vx := (s.v_reg y + 256 - s.v_reg x) % 256
      let new_vf := if s.v_reg y < s.v_reg x then 0 else 1
      .ok { s with v_reg := Function.update (Function.update s.v_reg x new_vx) 0xF new_vf }
  | 8, x, _, 0xE =>
      -- the msb is captured first, then `v_reg[x] <<= 1` (`u8`: low 8 bits kept),
      -- then `v_reg[0xF] = msb`
      let msb := (s.v_reg x >>> 7) &&& 1
      .ok { s with v_reg := Function.update (Function.update s.v_reg x ((s.v_reg x <<< 1) % 256)) 0xF msb }
  | 8, x, y, _ =>
      -- the source's `(8, _, _, _)` arm, documented as `8XY0`, placed after the
      -- other `8`-rows; as a wildcard it also captures 8XY8..8XYD and 8XYF
      .ok { s with v_reg := Function.update s.v_reg x (s.v_reg y) }
  | 9, x, y, 0 =>
      .ok (if s.v_reg x ≠ s.v_reg y then { s with pc := s.pc + 2 } else s)
  | 0xA, _, _, _ => .ok { s with i_reg := op &&& 0xFFF }
  | 0xB, _, _, _ => .ok { s with pc := s.v_reg 0 + (op &&& 0xFFF) }
  | 0xC, x, _, _ =>
      .ok { s with v_reg := Function.update s.v_reg x (rng &&& (op &&& 0xFF)) }
  | 0xD, x, y, n =>
      let d := s.drawSprite (s.v_reg x) (s.v_reg y) n
      .ok { s with screen := d.1,
                   v_reg := Function.update s.v_reg 0xF (if d.2 then 1 else 0) }
  | 0xE, x, 9, 0xE =>
      .ok (if s.keys (s.v_reg x) then { s with pc := s.pc + 2 } else s)
  | 0xE, x, 0xA, 1 =>
      .ok (if s.keys (s.v_reg x) then s else { s with pc := s.pc + 2 })
  | 0xF, x, 0, 7 => .ok { s with v_reg := Function.update s.v_reg x s.dt }
  | 0xF, x, 0, 0xA =>
      -- scan `keys[0..16]` in ascending order, stopping at the first pressed
      -- key; with none pressed, rewind `pc` so the opcode is refetched
      match (List.range NUM_KEYS).find? (fun i => s.keys i) with
      | some i => .ok { s with v_reg := Function.update s.v_reg x i }
      | none => .ok { s with pc := s.pc - 2 }
  | 0xF, x, 1, 5 => .ok { s with dt := s.v_reg x }
  | 0xF, x, 1, 8 => .ok { s with st := s.v_reg x }
  | 0xF, x, 1, 0xE =>
      -- `wrapping_add` on `u16`
      .ok { s with i_reg := (s.i_reg + s.v_reg x) % 65536 }
  | 0xF, x, 2, 9 => .ok { s with i_reg := s.v_reg x * 5 }
  | 0xF, x, 3, 3 =>
      -- the source extracts the decimal digits through `f32` arithmetic; on the
      -- `u8` range 0..=255 every intermediate is exactly representable and the
      -- truncating casts coincide with integer division and remainder
      let vx := s.v_reg x
      .ok { s with ram :=
        Function.update (Function.update (Function.update s.ram
          s.i_reg (vx / 100)) (s.i_reg + 1) (vx / 10 % 10)) (s.i_reg + 2) (vx % 10) }
  | 0xF, x, 5, 5 =>
      .ok { s with ram :=
        (List.range (x + 1)).foldl (fun r idx => Function.update r (s.i_reg + idx) (s.v_reg idx)) s.ram }
  | 0xF, x, 6, 5 =>
      .ok { s with v_reg :=
        (List.range (x + 1)).foldl (fun v idx => Function.update v idx (s.ram (s.i_reg + idx))) s.v_reg }
  | _, _, _, _ => .error op

/-- Method `Emu::tick` (`lib.rs` lines 204-210): fetch, then decode and execute. -/
def Emu.tick (s : Emu) (rng : Nat) : Except Nat Emu :=
  let f := s.fetch
  f.2.execute rng f.1

/-! ### Auxiliary definitions used by the claim statements -/

/-- The register file after a dispatch result: `v_reg j` of the resulting
state, or the (impossible for a byte) marker `RAM_SIZE` if dispatch signalled
an unimplemented opcode. -/
def regAfter (r : Except Nat Emu) (j : Nat) : Nat :=
  match r with
  | .ok t => t.v_reg j
  | .error _ => RAM_SIZE

/-- Spec-side model for comparison (C3): the spec row
`8XY6 | reg[F] = reg[X] & 1 (lsb before shift); reg[X] >>= 1`, read literally
as two ordered assignments to the register file. -/
def spec8XY6regs (v : Nat → Nat) (X : Nat) : Nat → Nat :=
  let v1 := Function.update v 0xF (v X &&& 1)
  Function.update v1 X (v1 X >>> 1)

/-- Spec-side model for comparison (C3): the spec row
`8XYE | reg[F] = (reg[X] >> 7) & 1 (msb before shift); reg[X] <<= 1`, read
literally as two ordered assignments to the register file. -/
def spec8XYEregs (v : Nat → Nat) (X : Nat) : Nat → Nat :=
  let v1 := Function.update v 0xF ((v X >>> 7) &&& 1)
  Function.update v1 X ((v1 X <<< 1) % 256)

/-- A state whose flag register holds the odd byte 1 (counterexample input for
the shift claims at `X = 0xF`). -/
def c3State : Emu := { Emu.new with v_reg := Function.update Emu.new.v_reg 0xF 1 }

/-- A state whose flag register holds `0x81` (msb set; counterexample input
for the `8XYE` shift claim at `X = 0xF`). -/
def c3StateE : Emu := { Emu.new with v_reg := Function.update Emu.new.v_reg 0xF 0x81 }

/-- A state with `v0 = 3` and `vF = 5` (counterexample input for the
arithmetic-flag claims at `X = 0xF`). -/
def c6State : Emu :=
  { Emu.new with v_reg := Function.update (Function.update Emu.new.v_reg 0 3) 0xF 5 }

/-- What C9 claims of `7XNN`: the target register receives the wrapped sum and
no other register — in particular not the flag register — is written. -/
def AddImmSemantics (s : Emu) (rng X NN : Nat) : Prop :=
  ∃ t, s.execute rng (0x7000 + X * 256 + NN) = .ok t ∧
    t.v_reg X = (s.v_reg X + NN) % 256 ∧
    ∀ j, j ≠ X → t.v_reg j = s.v_reg j

/-- What C10 claims of `DXY0`: the framebuffer is untouched and the flag
register is overwritten with 0, all other registers unchanged. -/
def ZeroHeightDraw (s : Emu) (rng X Y : Nat) : Prop :=
  ∃ t, s.execute rng (0xD000 + X * 256 + Y * 16) = .ok t ∧
    t.screen = s.screen ∧ t.v_reg 0xF = 0 ∧
    ∀ j, j ≠ 0xF → t.v_reg j = s.v_reg j

/-- The amended shift semantics (C3): for both `8XY6` and `8XYE` the flag
register always ends holding the captured pre-shift bit; the shifted value
survives in `reg[X]` only when `X ≠ 0xF` (for `X = 0xF` the final flag write
overwrites it); all other registers are untouched. -/
def ShiftSemantics (s : Emu) (rng X Y : Nat) : Prop :=
  (∃ t, s.execute rng (0x8006 + X * 256 + Y * 16) = .ok t ∧
    t.v_reg 0xF = s.v_reg X &&& 1 ∧
    (X ≠ 0xF → t.v_reg X = s.v_reg X >>> 1) ∧
    ∀ j, j ≠ X → j ≠ 0xF → t.v_reg j = s.v_reg j) ∧
  (∃ t, s.execute rng (0x800E + X * 256 + Y * 16) = .ok t ∧
    t.v_reg 0xF = (s.v_reg X >>> 7) &&& 1 ∧
    (X ≠ 0xF → t.v_reg X = (s.v_reg X <<< 1) % 256) ∧
    ∀ j, j ≠ X → j ≠ 0xF → t.v_reg j = s.v_reg j)

/-- The amended arithmetic-flag semantics (C6): for `8XY4`, `8XY5`, `8XY7`
the flag register always receives exactly the claimed carry/borrow flag; the
wrapped sum/difference lands in `reg[X]` when `X ≠ 0xF` (for `X = 0xF` the
subsequent flag write overwrites it). -/
def ArithFlagSemantics (s : Emu) (rng X Y : Nat) : Prop :=
  (∃ t, s.execute rng (0x8004 + X * 256 + Y * 16) = .ok t ∧
    t.v_reg 0xF = (if 255 < s.v_reg X + s.v_reg Y then 1 else 0) ∧
    (X ≠ 0xF → t.v_reg X = (s.v_reg X + s.v_reg Y) % 256)) ∧
  (∃ t, s.execute rng (0x8005 + X * 256 + Y * 16) = .ok t ∧
    t.v_reg 0xF = (if s.v_reg X < s.v_reg Y then 0 else 1) ∧
    (X ≠ 0xF → t.v_reg X = (s.v_reg X + 256 - s.v_reg Y) % 256)) ∧
  (∃ t, s.execute rng (0x8007 + X * 256 + Y * 16) = .ok t ∧
    t.v_reg 0xF = (if s.v_reg Y < s.v_reg X then 0 else 1) ∧
    (X ≠ 0xF → t.v_reg X = (s.v_reg Y + 256 - s.v_reg X) % 256))

/-- What C5 claims of a tick whose fetched instruction is `FX0A`: with no key
pressed, `pc` and the whole register file are left as they were; with at least
one key pressed, `pc` moves past the instruction and `reg[X]` receives the
lowest pressed key index. -/
def WaitKeySemantics (s : Emu) (rng X : Nat) : Prop :=
  ((∀ i, i < NUM_KEYS → s.keys i = false) →
    ∃ t, s.tick rng = .ok t ∧ t.pc = s.pc ∧ t.v_reg = s.v_reg) ∧
  ((∃ i, i < NUM_KEYS ∧ s.keys i = true) →
    ∃ t, s.tick rng = .ok t ∧ t.pc = s.pc + 2 ∧
      s.keys (t.v_reg X) = true ∧ ∀ j, j < t.v_reg X → s.keys j = false)

/-- What C7 claims: a call tick followed by a return tick leaves `pc` at the
instruction following the call. -/
def CallRetSemantics (s : Emu) (rng : Nat) : Prop :=
  ∃ t u, s.tick rng = .ok t ∧ t.tick rng = .ok u ∧ u.pc = s.pc + 2

/-- The effect of drawing one pixel index: XOR the pixel and accumulate the
collision flag from its old value (the body of the `DXYN` inner loop). -/
def drawStep (a : (Nat → Bool) × Bool) (idx : Nat) : (Nat → Bool) × Bool :=
  (Function.update a.1 idx (xor (a.1 idx) true), a.2 || a.1 idx)

/-- The pixel indices a sprite row writes: one wrapped framebuffer index for
each set bit of the row byte. -/
def rowTargets (x_coord y_coord y_line pixels : Nat) : List Nat :=
  ((List.range 8).filter (fun b => decide (pixels &&& (0x80 >>> b) ≠ 0))).map
    (fun b => (x_coord + b) % SCREEN_WIDTH + SCREEN_WIDTH * ((y_coord + y_line) % SCREEN_HEIGHT))

/-- All pixel indices a `DXYN` draw writes, row by row. -/
def Emu.spriteTargets (s : Emu) (x_coord y_coord num_rows : Nat) : List Nat :=
  (List.range num_rows).foldr
    (fun r acc => rowTargets x_coord y_coord r (s.ram (s.i_reg + r)) ++ acc) []

/-- What C4 claims of `DXYN`: every set sprite bit—and nothing else—is XORed
onto the framebuffer at its modulo-wrapped coordinate, and the flag register
reports whether any previously lit pixel was toggled off, over the whole
sprite. -/
def DrawSemantics (s : Emu) (rng X Y N : Nat) : Prop :=
  ∃ t, s.execute rng (0xD000 + X * 256 + Y * 16 + N) = .ok t ∧
    (∀ idx, t.screen idx =
      xor (s.screen idx) (decide (idx ∈ s.spriteTargets (s.v_reg X) (s.v_reg Y) N))) ∧
    (∀ idx, idx ∈ s.spriteTargets (s.v_reg X) (s.v_reg Y) N ↔
      ∃ r, r < N ∧ ∃ b, b < 8 ∧ s.ram (s.i_reg + r) &&& (0x80 >>> b) ≠ 0 ∧
        idx = (s.v_reg X + b) % SCREEN_WIDTH + SCREEN_WIDTH * ((s.v_reg Y + r) % SCREEN_HEIGHT)) ∧
    (t.v_reg 0xF = 1 ↔
      ∃ idx, idx ∈ s.spriteTargets (s.v_reg X) (s.v_reg Y) N ∧ s.screen idx = true) ∧
    (t.v_reg 0xF = 0 ↔
      ¬ ∃ idx, idx ∈ s.spriteTargets (s.v_reg X) (s.v_reg Y) N ∧ s.screen idx = true)

/-! ### Arithmetic bridges for the bitwise nibble extraction -/

lemma and_shiftRight_distrib (x y n : Nat) : (x &&& y) >>> n = (x >>> n) &&& (y >>> n) := by
  apply Nat.eq_of_testBit_eq
  intro i
  simp [Nat.testBit_shiftRight, Nat.testBit_and]

lemma or_shiftRight_distrib (x y n : Nat) : (x ||| y) >>> n = (x >>> n) ||| (y >>> n) := by
  apply Nat.eq_of_testBit_eq
  intro i
  simp [Nat.testBit_shiftRight, Nat.testBit_or]

lemma and_or_distrib_or (x y m : Nat) : (x ||| y) &&& m = (x &&& m) ||| (y &&& m) := by
  apply Nat.eq_of_testBit_eq
  intro i
  simp [Nat.testBit_and, Nat.testBit_or]
  cases x.testBit i <;> cases y.testBit i <;> cases m.testBit i <;> simp

/-- Combining two bytes big-endian, as `fetch` does with
`(higher_byte << 8) | lower_byte`, is plain positional arithmetic. -/
lemma shl8_lor (h l : Nat) (hl : l < 256) : (h <<< 8) ||| l = h * 256 + l := by
  have hmod : ((h <<< 8) ||| l) % 256 = l := by
    have h1 : ((h <<< 8) ||| l) &&& 255 = ((h <<< 8) &&& 255) ||| (l &&& 255) :=
      and_or_distrib_or _ _ _
    have h2 : (h <<< 8) &&& 255 = 0 := by
      have e := Nat.and_pow_two_sub_one_eq_mod (h <<< 8) 8
      norm_num at e
      rw [e, Nat.shiftLeft_eq]
      norm_num
    have h3 : l &&& 255 = l := by
      have e := Nat.and_pow_two_sub_one_eq_mod l 8
      norm_num at e
      omega
    have h4 := Nat.and_pow_two_sub_one_eq_mod ((h <<< 8) ||| l) 8
    norm_num at h4
    rw [← h4, h1, h2, h3, Nat.zero_or]
  have hdiv : ((h <<< 8) ||| l) / 256 = h := by
    have h1 : ((h <<< 8) ||| l) >>> 8 = ((h <<< 8) >>> 8) ||| (l >>> 8) :=
      or_shiftRight_distrib _ _ _
    rw [Nat.shiftRight_eq_div_pow, Nat.shiftRight_eq_div_pow, Nat.shiftRight_eq_div_pow,
        Nat.shiftLeft_eq] at h1
    norm_num at h1
    rw [Nat.div_eq_of_lt hl] at h1
    rw [Nat.shiftLeft_eq]
    simpa using h1
  omega

lemma and_fifteen (x : Nat) : x &&& 15 = x % 16 := by
  have e := Nat.and_pow_two_sub_one_eq_mod x 4
  norm_num at e
  exact e

lemma opDigit1 (op : Nat) (h : op < 65536) : (op &&& 0xF000) >>> 12 = op / 4096 := by
  rw [and_shiftRight_distrib]
  have h1 : (0xF000 : Nat) >>> 12 = 15 := by decide
  rw [h1, and_fifteen, Nat.shiftRight_eq_div_pow]
  norm_num
  omega

lemma opDigit2 (op : Nat) : (op &&& 0x0F00) >>> 8 = op / 256 % 16 := by
  rw [and_shiftRight_distrib]
  have h1 : (0x0F00 : Nat) >>> 8 = 15 := by decide
  rw [h1, and_fifteen, Nat.shiftRight_eq_div_pow]

lemma opDigit3 (op : Nat) : (op &&& 0x00F0) >>> 4 = op / 16 % 16 := by
  rw [and_shiftRight_distrib]
  have h1 : (0x00F0 : Nat) >>> 4 = 15 := by decide
  rw [h1, and_fifteen, Nat.shiftRight_eq_div_pow]

lemma opDigit4 (op : Nat) : op &&& 0x000F = op % 16 := and_fifteen op

lemma opNNN (op : Nat) : op &&& 0xFFF = op % 4096 := by
  have e := Nat.and_pow_two_sub_one_eq_mod op 12
  norm_num at e
  exact e

lemma opNN (op : Nat) : op &&& 0xFF = op % 256 := by
  have e := Nat.and_pow_two_sub_one_eq_mod op 8
  norm_num at e
  exact e

/-- All four nibble digits of an instruction word at once, for rewriting the
dispatch scrutinees. -/
lemma opDigits (op d1 d2 d3 d4 : Nat) (hop : op < 65536)
    (e1 : op / 4096 = d1) (e2 : op / 256 % 16 = d2)
    (e3 : op / 16 % 16 = d3) (e4 : op % 16 = d4) :
    ((op &&& 0xF000) >>> 12 = d1) ∧ ((op &&& 0x0F00) >>> 8 = d2) ∧
    ((op &&& 0x00F0) >>> 4 = d3) ∧ (op &&& 0x000F = d4) := by
  refine ⟨?_, ?_, ?_, ?_⟩
  · rw [opDigit1 _ hop, e1]
  · rw [opDigit2, e2]
  · rw [opDigit3, e3]
  · rw [opDigit4, e4]

/-! ### Claim theorems -/

/-- C1: the claim says `tick_timers` decrements each of `delay_timer` and
`sound_timer` by 1 when nonzero.  The code only does so for `delay_timer`:
its `st` branch contains no assignment, so the sound timer is never
decremented — on the state `dt = 1, st = 1` one call yields `dt = 0` but
leaves `st = 1`, contradicting the function's own documentation. -/
theorem c1_sound_timer_never_decremented :
    (∀ s : Emu, (s.tick_timers).st = s.st) ∧
    ((({ Emu.new with dt := 1, st := 1 } : Emu).tick_timers).dt = 0 ∧
      (({ Emu.new with dt := 1, st := 1 } : Emu).tick_timers).st = 1) := by
  refine ⟨fun s => ?_, rfl, rfl⟩
  simp only [Emu.tick_timers]
  split_ifs <;> rfl

/-- C2: the claim says every four-nibble pattern outside the instruction table
signals the fatal unimplemented-opcode condition carrying the raw word.  The
code's `(8, _, _, _)` arm — documented as `8XY0` — silently captures the
unlisted patterns 8XY8..8XYD and 8XYF and executes them with `8XY0` semantics:
the unlisted word 0x8018 dispatches to `reg[0] = reg[1]` and returns normally,
while a genuinely uncaptured unlisted word such as 0x5001 does signal the
error with the raw word. -/
theorem c2_unlisted_opcode_dispatch :
    Emu.new.execute 0 0x8018 =
      .ok { Emu.new with v_reg := Function.update Emu.new.v_reg 0 (Emu.new.v_reg 1) } ∧
    Emu.new.execute 0 0x5001 = Except.error 0x5001 :=
  ⟨rfl, rfl⟩

/-- C8: each font glyph `c` occupies the five bytes starting at address `c*5`
both right after construction, and `reset` rebuilds exactly the
just-constructed state (every field). -/
theorem c8_font_layout_and_reset :
    (∀ c, c < 16 → ∀ i, i < 5 → Emu.new.ram (c * 5 + i) = (fontGlyph c).getD i 0) ∧
    (∀ s : Emu, s.reset = Emu.new) := by
  constructor
  · decide
  · intro s
    rfl

/-- Witness for C8 at glyph `0xA`, row 2, and a concrete reset. -/
theorem c8_witness :
    Emu.new.ram (10 * 5 + 2) = (fontGlyph 10).getD 2 0 ∧ (Emu.new).reset = Emu.new :=
  ⟨c8_font_layout_and_reset.1 10 (by decide) 2 (by decide),
   c8_font_layout_and_reset.2 Emu.new⟩

/-- C9: `7XNN` stores the sum modulo 256 in `reg[X]` and writes no other
register, so the flag register is never written as a flag. -/
theorem c9_add_imm_wraps_no_flag (s : Emu) (rng X NN : Nat)
    (hX : X < 16) (hNN : NN < 256) : AddImmSemantics s rng X NN := by
  have h1 : ((0x7000 + X * 256 + NN) &&& 0xF000) >>> 12 = 7 := by
    rw [opDigit1 _ (by omega)]
    omega
  have h2 : ((0x7000 + X * 256 + NN) &&& 0x0F00) >>> 8 = X := by
    rw [opDigit2]
    omega
  have hnn : (0x7000 + X * 256 + NN) &&& 0xFF = NN := by
    rw [opNN]
    omega
  have hexec : s.execute rng (0x7000 + X * 256 + NN) =
      .ok { s with v_reg := Function.update s.v_reg X ((s.v_reg X + NN) % 256) } := by
    unfold Emu.execute
    rw [h1, h2, hnn]
  exact ⟨_, hexec, Function.update_same _ _ _,
    fun j hj => Function.update_noteq hj _ _⟩

/-- Witness for C9 at `X = 3`, `NN = 250` from the initial state. -/
theorem c9_witness : AddImmSemantics Emu.new 0 3 250 :=
  c9_add_imm_wraps_no_flag Emu.new 0 3 250 (by decide) (by decide)

/-- C10: a `DXY0` draw touches no pixel (zero rows) yet unconditionally
overwrites the flag register with 0. -/
theorem c10_zero_height_draw (s : Emu) (rng X Y : Nat)
    (hX : X < 16) (hY : Y < 16) : ZeroHeightDraw s rng X Y := by
  have h1 : ((0xD000 + X * 256 + Y * 16) &&& 0xF000) >>> 12 = 13 := by
    rw [opDigit1 _ (by omega)]
    omega
  have h2 : ((0xD000 + X * 256 + Y * 16) &&& 0x0F00) >>> 8 = X := by
    rw [opDigit2]
    omega
  have h3 : ((0xD000 + X * 256 + Y * 16) &&& 0x00F0) >>> 4 = Y := by
    rw [opDigit3]
    omega
  have h4 : (0xD000 + X * 256 + Y * 16) &&& 0x000F = 0 := by
    rw [opDigit4]
    omega
  have hd : s.drawSprite (s.v_reg X) (s.v_reg Y) 0 = (s.screen, false) := rfl
  have hexec : s.execute rng (0xD000 + X * 256 + Y * 16) =
      .ok { s with screen := (s.drawSprite (s.v_reg X) (s.v_reg Y) 0).1,
                   v_reg := Function.update s.v_reg 0xF
                     (if (s.drawSprite (s.v_reg X) (s.v_reg Y) 0).2 then 1 else 0) } := by
    unfold Emu.execute
    rw [h1, h2, h3, h4]
  rw [hd] at hexec
  refine ⟨_, hexec, rfl, ?_, ?_⟩
  · show Function.update s.v_reg 0xF (if (s.screen, false).2 then 1 else 0) 0xF = 0
    simp
  · intro j hj
    show Function.update s.v_reg 0xF (if (s.screen, false).2 then 1 else 0) j = s.v_reg j
    exact Function.update_noteq hj _ _

/-- Witness for C10 at `X = 1`, `Y = 2` from the initial state. -/
theorem c10_witness : ZeroHeightDraw Emu.new 0 1 2 :=
  c10_zero_height_draw Emu.new 0 1 2 (by decide) (by decide)

/-- C3 counterexample: for `X = 0xF` with `reg[F] = 1`, executing `8F06`
leaves `reg[F] = 1` — the pre-shift lsb — whereas the spec's ordered
assignments (flag write first, shift second) would leave `reg[F] = 0`; dually,
with `reg[F] = 0x81`, executing `8F0E` leaves `reg[F] = 1` where the ordered
assignments give `2`.  The claim's "effects exactly as the spec's ordered
assignments state" therefore fails at `X = 0xF`. -/
theorem c3_counterexample :
    regAfter (c3State.execute 0 0x8F06) 0xF ≠ spec8XY6regs c3State.v_reg 0xF 0xF ∧
    regAfter (c3StateE.execute 0 0x8F0E) 0xF ≠ spec8XYEregs c3StateE.v_reg 0xF 0xF := by
  constructor
  · decide
  · decide

/-- C3 (amended): `8XY6`/`8XYE` always leave the captured pre-shift bit in
`reg[F]`; the shifted value lands in `reg[X]` exactly when `X ≠ 0xF`, because
the code shifts first and writes the flag second, so for `X = 0xF` the flag
write overwrites the shift result. -/
theorem c3_shift_pre_bit (s : Emu) (rng X Y : Nat) (hX : X < 16) (hY : Y < 16) :
    ShiftSemantics s rng X Y := by
  obtain ⟨a1, a2, a3, a4⟩ := opDigits (0x8006 + X * 256 + Y * 16) 8 X Y 6
    (by omega) (by omega) (by omega) (by omega) (by omega)
  obtain ⟨b1, b2, b3, b4⟩ := opDigits (0x800E + X * 256 + Y * 16) 8 X Y 14
    (by omega) (by omega) (by omega) (by omega) (by omega)
  have hex6 : s.execute rng (0x8006 + X * 256 + Y * 16) =
      .ok { s with
        v_reg := Function.update (Function.update s.v_reg X (s.v_reg X >>> 1)) 0xF (s.v_reg X &&& 1) } := by
    unfold Emu.execute
    rw [a1, a2, a3, a4]
  have hexE : s.execute rng (0x800E + X * 256 + Y * 16) =
      .ok { s with
        v_reg := Function.update (Function.update s.v_reg X ((s.v_reg X <<< 1) % 256)) 0xF ((s.v_reg X >>> 7) &&& 1) } := by
    unfold Emu.execute
    rw [b1, b2, b3, b4]
  constructor
  · refine ⟨_, hex6, ?_, ?_, ?_⟩
    · show Function.update (Function.update s.v_reg X (s.v_reg X >>> 1)) 0xF
        (s.v_reg X &&& 1) 0xF = s.v_reg X &&& 1
      exact Function.update_same _ _ _
    · intro hXF
      show Function.update (Function.update s.v_reg X (s.v_reg X >>> 1)) 0xF
        (s.v_reg X &&& 1) X = s.v_reg X >>> 1
      rw [Function.update_noteq hXF, Function.update_same]
    · intro j hjX hjF
      show Function.update (Function.update s.v_reg X (s.v_reg X >>> 1)) 0xF
        (s.v_reg X &&& 1) j = s.v_reg j
      rw [Function.update_noteq hjF, Function.update_noteq hjX]
  · refine ⟨_, hexE, ?_, ?_, ?_⟩
    · show Function.update (Function.update s.v_reg X ((s.v_reg X <<< 1) % 256)) 0xF
        ((s.v_reg X >>> 7) &&& 1) 0xF = (s.v_reg X >>> 7) &&& 1
      exact Function.update_same _ _ _
    · intro hXF
      show Function.update (Function.update s.v_reg X ((s.v_reg X <<< 1) % 256)) 0xF
        ((s.v_reg X >>> 7) &&& 1) X = (s.v_reg X <<< 1) % 256
      rw [Function.update_noteq hXF, Function.update_same]
    · intro j hjX hjF
      show Function.update (Function.update s.v_reg X ((s.v_reg X <<< 1) % 256)) 0xF
        ((s.v_reg X >>> 7) &&& 1) j = s.v_reg j
      rw [Function.update_noteq hjF, Function.update_noteq hjX]

/-- Witness for C3 at `X = 2`, `Y = 3` from the initial state. -/
theorem c3_witness : ShiftSemantics Emu.new 0 2 3 :=
  c3_shift_pre_bit Emu.new 0 2 3 (by decide) (by decide)

/-- C6 counterexample: for `X = 0xF` with `reg[F] = 5`, `reg[0] = 3`,
executing `8F04` leaves `reg[F] = 0` (the carry flag), not the wrapping sum
`8` the claim promises for `reg[X]`: the flag write happens after the result
write and overwrites it. -/
theorem c6_counterexample :
    regAfter (c6State.execute 0 0x8F04) 0xF ≠
      (c6State.v_reg 0xF + c6State.v_reg 0) % 256 := by
  decide

/-- C6 (amended): `8XY4`/`8XY5`/`8XY7` always give `reg[F]` exactly the
claimed carry/borrow flag; the wrapped sum/difference lands in `reg[X]`
exactly when `X ≠ 0xF`, because the flag is written after the result and
overwrites it when they alias. -/
theorem c6_arith_flags (s : Emu) (rng X Y : Nat) (hX : X < 16) (hY : Y < 16)
    (_hvx : s.v_reg X < 256) (_hvy : s.v_reg Y < 256) :
    ArithFlagSemantics s rng X Y := by
  obtain ⟨a1, a2, a3, a4⟩ := opDigits (0x8004 + X * 256 + Y * 16) 8 X Y 4
    (by omega) (by omega) (by omega) (by omega) (by omega)
  obtain ⟨b1, b2, b3, b4⟩ := opDigits (0x8005 + X * 256 + Y * 16) 8 X Y 5
    (by omega) (by omega) (by omega) (by omega) (by omega)
  obtain ⟨c1, c2, c3, c4⟩ := opDigits (0x8007 + X * 256 + Y * 16) 8 X Y 7
    (by omega) (by omega) (by omega) (by omega) (by omega)
  have hex4 : s.execute rng (0x8004 + X * 256 + Y * 16) =
      .ok { s with
        v_reg := Function.update (Function.update s.v_reg X ((s.v_reg X + s.v_reg Y) % 256)) 0xF (if 255 < s.v_reg X + s.v_reg Y then 1 else 0) } := by
    unfold Emu.execute
    rw [a1, a2, a3, a4]
  have hex5 : s.execute rng (0x8005 + X * 256 + Y * 16) =
      .ok { s with
        v_reg := Function.update (Function.update s.v_reg X ((s.v_reg X + 256 - s.v_reg Y) % 256)) 0xF (if s.v_reg X < s.v_reg Y then 0 else 1) } := by
    unfold Emu.execute
    rw [b1, b2, b3, b4]
  have hex7 : s.execute rng (0x8007 + X * 256 + Y * 16) =
      .ok { s with
        v_reg := Function.update (Function.update s.v_reg X ((s.v_reg Y + 256 - s.v_reg X) % 256)) 0xF (if s.v_reg Y < s.v_reg X then 0 else 1) } := by
    unfold Emu.execute
    rw [c1, c2, c3, c4]
  refine ⟨⟨_, hex4, ?_, ?_⟩, ⟨_, hex5, ?_, ?_⟩, ⟨_, hex7, ?_, ?_⟩⟩
  · show Function.update (Function.update s.v_reg X ((s.v_reg X + s.v_reg Y) % 256)) 0xF
      (if 255 < s.v_reg X + s.v_reg Y then 1 else 0) 0xF = if 255 < s.v_reg X + s.v_reg Y then 1 else 0
    exact Function.update_same _ _ _
  · intro hXF
    show Function.update (Function.update s.v_reg X ((s.v_reg X + s.v_reg Y) % 256)) 0xF
      (if 255 < s.v_reg X + s.v_reg Y then 1 else 0) X = (s.v_reg X + s.v_reg Y) % 256
    rw [Function.update_noteq hXF, Function.update_same]
  · show Function.update (Function.update s.v_reg X ((s.v_reg X + 256 - s.v_reg Y) % 256)) 0xF
      (if s.v_reg X < s.v_reg Y then 0 else 1) 0xF = if s.v_reg X < s.v_reg Y then 0 else 1
    exact Function.update_same _ _ _
  · intro hXF
    show Function.update (Function.update s.v_reg X ((s.v_reg X + 256 - s.v_reg Y) % 256)) 0xF
      (if s.v_reg X < s.v_reg Y then 0 else 1) X = (s.v_reg X + 256 - s.v_reg Y) % 256
    rw [Function.update_noteq hXF, Function.update_same]
  · show Function.update (Function.update s.v_reg X ((s.v_reg Y + 256 - s.v_reg X) % 256)) 0xF
      (if s.v_reg Y < s.v_reg X then 0 else 1) 0xF = if s.v_reg Y < s.v_reg X then 0 else 1
    exact Function.update_same _ _ _
  · intro hXF
    show Function.update (Function.update s.v_reg X ((s.v_reg Y + 256 - s.v_reg X) % 256)) 0xF
      (if s.v_reg Y < s.v_reg X then 0 else 1) X = (s.v_reg Y + 256 - s.v_reg X) % 256
    rw [Function.update_noteq hXF, Function.update_same]

/-- Witness for C6 at the spec's boundary pair `(255, 1)` in `v0`, `v1`. -/
theorem c6_witness :
    ArithFlagSemantics
      { Emu.new with v_reg := Function.update (Function.update Emu.new.v_reg 0 255) 1 1 }
      0 0 1 :=
  c6_arith_flags _ 0 0 1 (by decide) (by decide) (by decide) (by decide)

/-- Searching with `List.find?` over `range n` returns a satisfying element that is minimal:
everything below it fails the predicate. -/
lemma find?_range_spec (p : Nat → Bool) (n i : Nat)
    (h : (List.range n).find? p = some i) : p i = true ∧ ∀ j, j < i → p j = false := by
  induction n with
  | zero => simp [List.range_zero] at h
  | succ m ih =>
    rw [List.range_succ, List.find?_append] at h
    cases hm : (List.range m).find? p with
    | some k =>
      rw [hm] at h
      simp only [Option.or_some] at h
      cases h
      exact ih hm
    | none =>
      rw [hm] at h
      simp only [Option.none_or] at h
      cases hpm : p m with
      | false => simp [List.find?_cons, hpm] at h
      | true =>
        simp [List.find?_cons, hpm] at h
        cases h
        refine ⟨hpm, fun j hj => ?_⟩
        have := List.find?_eq_none.mp hm j (List.mem_range.mpr hj)
        simpa using this

/-- Dispatch of a fetched `FX0A` word on an arbitrary state. -/
lemma execute_FX0A (s : Emu) (rng X : Nat) (hX : X < 16) :
    s.execute rng (0xF00A + X * 256) =
      match (List.range NUM_KEYS).find? (fun i => s.keys i) with
      | some i => .ok { s with v_reg := Function.update s.v_reg X i }
      | none => .ok { s with pc := s.pc - 2 } := by
  obtain ⟨d1, d2, d3, d4⟩ := opDigits (0xF00A + X * 256) 15 X 0 10
    (by omega) (by omega) (by omega) (by omega) (by omega)
  unfold Emu.execute
  rw [d1, d2, d3, d4]

/-- C5: when the instruction at `pc` is `FX0A`, a tick with no key pressed
restores `pc` to its pre-tick value (the fetch advance is undone) and leaves
the whole register file untouched, while a tick with at least one key pressed
advances `pc` past the instruction and stores the lowest pressed key index in
`reg[X]`. -/
theorem c5_wait_for_key (s : Emu) (rng X : Nat) (hX : X < 16)
    (hb1 : s.ram s.pc = 0xF0 + X) (hb2 : s.ram (s.pc + 1) = 0x0A) :
    WaitKeySemantics s rng X := by
  have hop : (s.ram s.pc <<< 8) ||| s.ram (s.pc + 1) = 0xF00A + X * 256 := by
    rw [hb1, hb2, shl8_lor _ _ (by norm_num)]
    omega
  have htick : s.tick rng =
      ({ s with pc := s.pc + 2 } : Emu).execute rng ((s.ram s.pc <<< 8) ||| s.ram (s.pc + 1)) := rfl
  rw [hop, execute_FX0A _ rng X hX] at htick
  constructor
  · intro hno
    have hfind : (List.range NUM_KEYS).find? (fun i => ({ s with pc := s.pc + 2 } : Emu).keys i) = none := by
      refine List.find?_eq_none.mpr (fun i hi => ?_)
      have := hno i (List.mem_range.mp hi)
      simp only [this]
      exact fun hc => by cases hc
    rw [hfind] at htick
    refine ⟨_, htick, ?_, rfl⟩
    show s.pc + 2 - 2 = s.pc
    omega
  · rintro ⟨i, hi, hki⟩
    cases hfind : (List.range NUM_KEYS).find? (fun i => ({ s with pc := s.pc + 2 } : Emu).keys i) with
    | none =>
      exfalso
      have := List.find?_eq_none.mp hfind i (List.mem_range.mpr hi)
      exact this hki
    | some i0 =>
      rw [hfind] at htick
      dsimp only at htick
      obtain ⟨hk0, hmin⟩ := find?_range_spec _ _ _ hfind
      refine ⟨_, htick, rfl, ?_, ?_⟩
      · simp only [Function.update_same]
        exact hk0
      · intro j hj
        simp only [Function.update_same] at hj
        exact hmin j hj

/-- Witness for C5: a state with `F30A` at `pc` and key 5 pressed, plus the
same state with no key pressed, both driven through `tick`. -/
theorem c5_witness :
    WaitKeySemantics
      { Emu.new with
          ram := Function.update (Function.update Emu.new.ram 0x200 0xF3) 0x201 0x0A,
          keys := Function.update Emu.new.keys 5 true }
      0 3 :=
  c5_wait_for_key _ 0 3 (by decide) (by decide) (by decide)

/-- C7: from any state with a free stack slot whose instruction at `p = pc` is
`2NNN` and where address `NNN` holds `00EE`, the call tick pushes the advanced
counter and jumps, and the return tick pops it back: `pc` ends at `p + 2`. -/
theorem c7_call_then_ret (s : Emu) (rng NNN : Nat) (_hsp : s.sp < STACK_SIZE)
    (hNNN : NNN < 4096)
    (hb1 : s.ram s.pc = 0x20 + NNN / 256) (hb2 : s.ram (s.pc + 1) = NNN % 256)
    (hr1 : s.ram NNN = 0x00) (hr2 : s.ram (NNN + 1) = 0xEE) :
    CallRetSemantics s rng := by
  have hop1 : (s.ram s.pc <<< 8) ||| s.ram (s.pc + 1) = 0x2000 + NNN := by
    rw [hb1, hb2, shl8_lor _ _ (by omega)]
    omega
  have hd1 : ((0x2000 + NNN) &&& 0xF000) >>> 12 = 2 := by
    rw [opDigit1 _ (by omega)]
    omega
  have hnnn : (0x2000 + NNN) &&& 0xFFF = NNN := by
    rw [opNNN]
    omega
  have hex1 : ({ s with pc := s.pc + 2 } : Emu).execute rng (0x2000 + NNN) =
      .ok { ({ s with pc := s.pc + 2 } : Emu).push ({ s with pc := s.pc + 2 } : Emu).pc with
        pc := NNN } := by
    unfold Emu.execute
    rw [hd1, hnnn]
  have ht1 : s.tick rng =
      .ok { pc := NNN
            ram := s.ram
            screen := s.screen
            v_reg := s.v_reg
            i_reg := s.i_reg
            sp := s.sp + 1
            stack := Function.update s.stack s.sp (s.pc + 2)
            keys := s.keys
            dt := s.dt
            st := s.st } := by
    show ({ s with pc := s.pc + 2 } : Emu).execute rng
      ((s.ram s.pc <<< 8) ||| s.ram (s.pc + 1)) = _
    rw [hop1]
    exact hex1.trans (by rfl)
  have ht2 : (({ pc := NNN
                 ram := s.ram
                 screen := s.screen
                 v_reg := s.v_reg
                 i_reg := s.i_reg
                 sp := s.sp + 1
                 stack := Function.update s.stack s.sp (s.pc + 2)
                 keys := s.keys
                 dt := s.dt
                 st := s.st } : Emu)).tick rng =
      .ok { pc := Function.update s.stack s.sp (s.pc + 2) (s.sp + 1 - 1)
            ram := s.ram
            screen := s.screen
            v_reg := s.v_reg
            i_reg := s.i_reg
            sp := s.sp + 1 - 1
            stack := Function.update s.stack s.sp (s.pc + 2)
            keys := s.keys
            dt := s.dt
            st := s.st } := by
    show (({ pc := NNN + 2
             ram := s.ram
             screen := s.screen
             v_reg := s.v_reg
             i_reg := s.i_reg
             sp := s.sp + 1
             stack := Function.update s.stack s.sp (s.pc + 2)
             keys := s.keys
             dt := s.dt
             st := s.st } : Emu)).execute rng ((s.ram NNN <<< 8) ||| s.ram (NNN + 1)) = _
    rw [hr1, hr2]
    rfl
  refine ⟨_, _, ht1, ht2, ?_⟩
  show Function.update s.stack s.sp (s.pc + 2) (s.sp + 1 - 1) = s.pc + 2
  simp

/-- Witness for C7: a call `2300` at `0x200` with `00EE` at `0x300`. -/
theorem c7_witness :
    CallRetSemantics
      { Emu.new with
          ram := Function.update (Function.update Emu.new.ram 0x200 0x23) 0x301 0xEE }
      0 :=
  c7_call_then_ret _ 0 0x300 (by decide) (by decide) (by decide) (by decide)
    (by decide) (by decide)

/-! ### The draw loop as a fold over its target pixel list -/

lemma spriteRow_eq_targets (x_coord y_coord y_line pixels : Nat)
    (acc : (Nat → Bool) × Bool) :
    spriteRow x_coord y_coord y_line pixels acc =
      (rowTargets x_coord y_coord y_line pixels).foldl drawStep acc := by
  unfold spriteRow rowTargets
  generalize List.range 8 = L
  induction L generalizing acc with
  | nil => rfl
  | cons hd tl ih =>
    rw [List.foldl_cons, List.filter_cons]
    by_cases hp : pixels &&& (0x80 >>> hd) ≠ 0
    · rw [if_pos hp, if_pos (decide_eq_true hp), List.map_cons, List.foldl_cons, ih]
      rfl
    · rw [if_neg hp, if_neg (by simp [hp]), ih]

lemma drawSprite_succ (s : Emu) (x y m : Nat) :
    s.drawSprite x y (m + 1) =
      spriteRow x y m (s.ram (s.i_reg + m)) (s.drawSprite x y m) := by
  unfold Emu.drawSprite
  rw [List.range_succ, List.foldl_append]
  rfl

lemma foldr_append_init (g : Nat → List Nat) (L : List Nat) (init : List Nat) :
    L.foldr (fun r acc => g r ++ acc) init =
      L.foldr (fun r acc => g r ++ acc) [] ++ init := by
  induction L with
  | nil => simp
  | cons hd tl ih => simp [List.foldr_cons, ih]

lemma spriteTargets_succ (s : Emu) (x y n : Nat) :
    s.spriteTargets x y (n + 1) =
      s.spriteTargets x y n ++ rowTargets x y n (s.ram (s.i_reg + n)) := by
  unfold Emu.spriteTargets
  rw [List.range_succ, List.foldr_append]
  rw [foldr_append_init]
  simp

lemma drawSprite_eq_targets (s : Emu) (x y n : Nat) :
    s.drawSprite x y n =
      (s.spriteTargets x y n).foldl drawStep (s.screen, false) := by
  induction n with
  | zero => rfl
  | succ m ih =>
    rw [drawSprite_succ, ih, spriteRow_eq_targets, spriteTargets_succ, List.foldl_append]

lemma foldl_drawStep_fst (L : List Nat) :
    L.Nodup → ∀ (scr : Nat → Bool) (fl : Bool) (idx : Nat),
      (L.foldl drawStep (scr, fl)).1 idx = xor (scr idx) (decide (idx ∈ L)) := by
  induction L with
  | nil =>
    intro _ scr fl idx
    simp
  | cons a tl ih =>
    intro hnd scr fl idx
    rcases List.nodup_cons.mp hnd with ⟨ha, htl⟩
    rw [List.foldl_cons]
    have hstep : drawStep (scr, fl) a =
        (Function.update scr a (xor (scr a) true), fl || scr a) := rfl
    rw [hstep, ih htl]
    by_cases hidx : idx = a
    · subst hidx
      rw [Function.update_same]
      have h2 : decide (idx ∈ tl) = false := by simp [ha]
      rw [h2]
      simp
    · rw [Function.update_noteq hidx]
      have hmem : (idx ∈ a :: tl) ↔ (idx ∈ tl) := by simp [hidx]
      simp [hmem]

lemma any_congr_of_eq (l : List Nat) (p q : Nat → Bool)
    (h : ∀ x, x ∈ l → p x = q x) : l.any p = l.any q := by
  induction l with
  | nil => rfl
  | cons a tl ih =>
    simp only [List.any_cons]
    rw [h a (by simp), ih (fun x hx => h x (by simp [hx]))]

lemma foldl_drawStep_snd (L : List Nat) :
    L.Nodup → ∀ (scr : Nat → Bool) (fl : Bool),
      (L.foldl drawStep (scr, fl)).2 = (fl || L.any (fun i => scr i)) := by
  induction L with
  | nil =>
    intro _ scr fl
    simp
  | cons a tl ih =>
    intro hnd scr fl
    rcases List.nodup_cons.mp hnd with ⟨ha, htl⟩
    rw [List.foldl_cons]
    have hstep : drawStep (scr, fl) a =
        (Function.update scr a (xor (scr a) true), fl || scr a) := rfl
    rw [hstep, ih htl]
    have hany : tl.any (fun i => Function.update scr a (xor (scr a) true) i) =
        tl.any (fun i => scr i) := by
      apply any_congr_of_eq
      intro x hx
      have : x ≠ a := fun hc => ha (hc ▸ hx)
      rw [Function.update_noteq this]
    rw [hany]
    simp [Bool.or_assoc]

lemma mem_rowTargets (x y r pix idx : Nat) :
    idx ∈ rowTargets x y r pix ↔
      ∃ b, b < 8 ∧ pix &&& (0x80 >>> b) ≠ 0 ∧
        idx = (x + b) % SCREEN_WIDTH + SCREEN_WIDTH * ((y + r) % SCREEN_HEIGHT) := by
  unfold rowTargets
  simp only [List.mem_map, List.mem_filter, List.mem_range, decide_eq_true_eq]
  constructor
  · rintro ⟨b, ⟨hb, hbit⟩, he⟩
    exact ⟨b, hb, hbit, he.symm⟩
  · rintro ⟨b, hb, hbit, he⟩
    exact ⟨b, ⟨hb, hbit⟩, he.symm⟩

lemma mem_spriteTargets (s : Emu) (x y n idx : Nat) :
    idx ∈ s.spriteTargets x y n ↔
      ∃ r, r < n ∧ idx ∈ rowTargets x y r (s.ram (s.i_reg + r)) := by
  induction n with
  | zero =>
    constructor
    · intro h
      cases h
    · rintro ⟨r, hr, _⟩
      omega
  | succ m ih =>
    rw [spriteTargets_succ, List.mem_append, ih]
    constructor
    · rintro (⟨r, hr, hm⟩ | hm)
      · exact ⟨r, by omega, hm⟩
      · exact ⟨m, by omega, hm⟩
    · rintro ⟨r, hr, hm⟩
      by_cases hrm : r = m
      · subst hrm
        exact Or.inr hm
      · exact Or.inl ⟨r, by omega, hm⟩

lemma rowTargets_nodup (x y r pix : Nat) : (rowTargets x y r pix).Nodup := by
  unfold rowTargets
  apply List.Nodup.map_on
  · intro b1 hb1 b2 hb2 heq
    have h1 : b1 < 8 := List.mem_range.mp (List.mem_filter.mp hb1).1
    have h2 : b2 < 8 := List.mem_range.mp (List.mem_filter.mp hb2).1
    simp only [SCREEN_WIDTH, SCREEN_HEIGHT] at heq
    omega
  · exact List.Nodup.filter _ (List.nodup_range 8)

lemma spriteTargets_nodup (s : Emu) (x y n : Nat) (hn : n ≤ 16) :
    (s.spriteTargets x y n).Nodup := by
  induction n with
  | zero => exact List.Pairwise.nil
  | succ m ih =>
    rw [spriteTargets_succ]
    refine List.Nodup.append (ih (by omega)) (rowTargets_nodup _ _ _ _) ?_
    intro a ha1 ha2
    obtain ⟨r, hr, hm⟩ := (mem_spriteTargets s x y m a).mp ha1
    obtain ⟨b1, hb1, _, he1⟩ := (mem_rowTargets _ _ _ _ _).mp hm
    obtain ⟨b2, hb2, _, he2⟩ := (mem_rowTargets _ _ _ _ _).mp ha2
    simp only [SCREEN_WIDTH, SCREEN_HEIGHT] at he1 he2
    omega

/-- C4: for a `DXYN` instruction with the sprite rows in memory bounds, the
resulting framebuffer XORs exactly the wrapped target pixels of the sprite's
set bits onto the old framebuffer (membership in `spriteTargets` is spelled
out bit by bit), and the flag register reads 1 precisely when some target
pixel was previously lit (that pixel being toggled lit→unlit), 0 otherwise. -/
theorem c4_draw_sprite (s : Emu) (rng X Y N : Nat) (hX : X < 16) (hY : Y < 16)
    (hN : N < 16) (_hbound : s.i_reg + N ≤ RAM_SIZE) : DrawSemantics s rng X Y N := by
  obtain ⟨d1, d2, d3, d4⟩ := opDigits (0xD000 + X * 256 + Y * 16 + N) 13 X Y N
    (by omega) (by omega) (by omega) (by omega) (by omega)
  have hexec : s.execute rng (0xD000 + X * 256 + Y * 16 + N) =
      .ok { s with
        screen := (s.drawSprite (s.v_reg X) (s.v_reg Y) N).1,
        v_reg := Function.update s.v_reg 0xF (if (s.drawSprite (s.v_reg X) (s.v_reg Y) N).2 then 1 else 0) } := by
    unfold Emu.execute
    rw [d1, d2, d3, d4]
  have hnd := spriteTargets_nodup s (s.v_reg X) (s.v_reg Y) N (by omega)
  have hdraw := drawSprite_eq_targets s (s.v_reg X) (s.v_reg Y) N
  have hflag : (s.drawSprite (s.v_reg X) (s.v_reg Y) N).2 =
      (s.spriteTargets (s.v_reg X) (s.v_reg Y) N).any (fun i => s.screen i) := by
    rw [hdraw, foldl_drawStep_snd _ hnd s.screen false]
    simp
  have hmem : ∀ idx, idx ∈ s.spriteTargets (s.v_reg X) (s.v_reg Y) N ↔
      ∃ r, r < N ∧ ∃ b, b < 8 ∧ s.ram (s.i_reg + r) &&& (0x80 >>> b) ≠ 0 ∧
        idx = (s.v_reg X + b) % SCREEN_WIDTH +
          SCREEN_WIDTH * ((s.v_reg Y + r) % SCREEN_HEIGHT) := by
    intro idx
    rw [mem_spriteTargets]
    constructor
    · rintro ⟨r, hr, hm⟩
      obtain ⟨b, hb, hbit, he⟩ := (mem_rowTargets _ _ _ _ _).mp hm
      exact ⟨r, hr, b, hb, hbit, he⟩
    · rintro ⟨r, hr, b, hb, hbit, he⟩
      exact ⟨r, hr, (mem_rowTargets _ _ _ _ _).mpr ⟨b, hb, hbit, he⟩⟩
  refine ⟨_, hexec, ?_, hmem, ?_, ?_⟩
  · intro idx
    show (s.drawSprite (s.v_reg X) (s.v_reg Y) N).1 idx =
      xor (s.screen idx) (decide (idx ∈ s.spriteTargets (s.v_reg X) (s.v_reg Y) N))
    rw [hdraw]
    exact foldl_drawStep_fst _ hnd s.screen false idx
  · show Function.update s.v_reg 0xF
        (if (s.drawSprite (s.v_reg X) (s.v_reg Y) N).2 then 1 else 0) 0xF = 1 ↔ _
    rw [Function.update_same, hflag]
    cases hany : (s.spriteTargets (s.v_reg X) (s.v_reg Y) N).any (fun i => s.screen i) with
    | false =>
      simp only [if_neg (by simp : ¬(false = true))]
      constructor
      · intro h
        cases h
      · intro h
        exfalso
        obtain ⟨idx, hin, hlit⟩ := h
        have : (s.spriteTargets (s.v_reg X) (s.v_reg Y) N).any (fun i => s.screen i) = true :=
          List.any_eq_true.mpr ⟨idx, hin, hlit⟩
        rw [hany] at this
        cases this
    | true =>
      simp only [if_pos rfl]
      constructor
      · intro _
        obtain ⟨idx, hin, hlit⟩ := List.any_eq_true.mp hany
        exact ⟨idx, hin, hlit⟩
      · intro _
        rfl
  · show Function.update s.v_reg 0xF
        (if (s.drawSprite (s.v_reg X) (s.v_reg Y) N).2 then 1 else 0) 0xF = 0 ↔ _
    rw [Function.update_same, hflag]
    cases hany : (s.spriteTargets (s.v_reg X) (s.v_reg Y) N).any (fun i => s.screen i) with
    | false =>
      simp only [if_neg (by simp : ¬(false = true))]
      constructor
      · intro _ h
        obtain ⟨idx, hin, hlit⟩ := h
        have : (s.spriteTargets (s.v_reg X) (s.v_reg Y) N).any (fun i => s.screen i) = true :=
          List.any_eq_true.mpr ⟨idx, hin, hlit⟩
        rw [hany] at this
        cases this
      · intro _
        trivial
    | true =>
      simp only [if_pos rfl]
      constructor
      · intro h
        cases h
      · intro h
        exfalso
        exact h (List.any_eq_true.mp hany)

/-- Witness for C4: draw two rows of the font glyph `0` (at `i_reg = 0`)
at the origin, from the freshly constructed machine. -/
theorem c4_witness : DrawSemantics Emu.new 0 0 1 2 :=
  c4_draw_sprite Emu.new 0 0 1 2 (by decide) (by decide) (by decide) (by decide)

end Chip8
